import Mathlib

/-!
Verification development for the keybox-checker program (`main.py`).

The program scans XML files for PEM certificate blocks, checks each
certificate's serial number against a remote revocation list, and offers to
delete files that contain revoked certificates.  The definitions below are a
shallow embedding of the program: text is `List Char`, the revocation table is
an association list, machine-external effects (the HTTP fetch, the PEM parser
from the `cryptography` library, standard input) are explicit parameters.
Python's ASCII-relevant `str.lower` / `str.strip` are modelled on ASCII;
the inputs the program compares against are ASCII.
-/

/-- One value of the revocation table: `{"status": ..., "reason": ...}`
as built by `get_online_serial_list`. -/
structure RevEntry where
  status : String
  reason : String
deriving DecidableEq

/-- The revocation table built by `get_online_serial_list`: a mapping from
lowercase hex serial strings to entries (Python `dict`, embedded as an
association list with unique keys maintained by `dictInsert`). -/
abbrev RevocationTable := List (String × RevEntry)

/-- `key in table` / `table[key]` for the Python dict. -/
def tableFind? (table : RevocationTable) (key : String) : Option RevEntry :=
  match table.find? (fun p => p.1 == key) with
  | some p => some p.2
  | none => none

/-- Python dict assignment `d[k] = v`: overwrite if present, else append. -/
def dictInsert (d : RevocationTable) (k : String) (v : RevEntry) : RevocationTable :=
  if d.any (fun p => p.1 == k) then d.map (fun p => if p.1 == k then (k, v) else p)
  else d ++ [(k, v)]

/-- Python `s.lower()` (ASCII model, matching `Char.toLower`). -/
def pyLower (s : String) : String := String.mk (s.data.map Char.toLower)

/-- Python `str.strip()` on raw characters: drop whitespace at both ends. -/
def pyStripChars (l : List Char) : List Char :=
  ((l.dropWhile Char.isWhitespace).reverse.dropWhile Char.isWhitespace).reverse

/-- Python `s.strip()`. -/
def pyStrip (s : String) : String := String.mk (pyStripChars s.data)

/-- The raw JSON value for one serial in the fetched list: `status` and
`reason` fields are optional (`info.get(...)` supplies defaults). -/
structure RawEntryInfo where
  statusField : Option String
  reasonField : Option String

/-- The result of the HTTP GET in `get_online_serial_list`: either some
exception (network error, non-2xx status via `raise_for_status`, malformed
JSON) or a decoded `entries` map. -/
inductive FetchOutcome where
  | failure (message : String)
  | success (entries : List (String × RawEntryInfo))

/-- `get_online_serial_list`: on success, re-key every serial to lowercase and
default missing fields to `"UNKNOWN"` / `"UNSPECIFIED"`; on any exception,
print the error and return the empty table. -/
def get_online_serial_list : FetchOutcome → RevocationTable
  | .failure _ => []
  | .success entries =>
    entries.foldl
      (fun d p =>
        dictInsert d (pyLower p.1)
          ⟨p.2.statusField.getD "UNKNOWN", p.2.reasonField.getD "UNSPECIFIED"⟩)
      []

/-- Python `format(n, "x")`: minimal-length lowercase hexadecimal. -/
def format_x (n : Nat) : String := String.mk (Nat.toDigits 16 n)

/-- `hex_serial` in `process_certificate`:
`format(cert.serial_number, "x").lower().lstrip("0")`. -/
def subjectSerialHex (n : Nat) : String :=
  String.mk ((pyLower (format_x n)).data.dropWhile (fun c => c == '0'))

/-- Character class `[a-f0-9]` of the issuer-serial normalization regex. -/
def isLowerHexDigit (c : Char) : Bool :=
  ('a' ≤ c && c ≤ 'f') || ('0' ≤ c && c ≤ '9')

/-- `re.sub(r"[^a-f0-9]", "", attr.value.lower())`. -/
def normalizeIssuerSerial (v : String) : String :=
  String.mk ((pyLower v).data.filter isLowerHexDigit)

/-- One attribute of the issuer distinguished name; `oidIsSerialNumber`
models `attr.oid == x509.NameOID.SERIAL_NUMBER`. -/
structure NameAttr where
  oidIsSerialNumber : Bool
  value : String

/-- A parsed X.509 certificate, as far as `process_certificate` reads it. -/
structure Cert where
  serial_number : Nat
  issuer : List NameAttr

/-- The `for attr in cert.issuer` scan: normalize the value of the first
attribute whose OID is SERIAL_NUMBER, else `None`. -/
def findIssuerSerial : List NameAttr → Option String
  | [] => none
  | a :: rest =>
    if a.oidIsSerialNumber then some (normalizeIssuerSerial a.value)
    else findIssuerSerial rest

/-- The `if hex_serial in online_serials ... elif issuer_serial and
issuer_serial in online_serials ...` chain; `issuer_serial and ...` skips the
issuer lookup when the issuer serial is `None` or the empty string. -/
def lookupStatus (table : RevocationTable) (hexSerial : String)
    (issuerSerial : Option String) : Option RevEntry :=
  match tableFind? table hexSerial with
  | some e => some e
  | none =>
    match issuerSerial with
    | some s => if s = "" then none else tableFind? table s
    | none => none

/-- The tuple returned by `process_certificate`. -/
structure CertEval where
  hex_serial : Option String
  issuer_serial : Option String
  found : Bool
  status_info : Option RevEntry
deriving DecidableEq

/-- `process_certificate(cert_pem, online_serials)`.  The external PEM parse
(`x509.load_pem_x509_certificate`) is an explicit argument: `none` is the
exception branch, which returns `(None, None, False, None)`. -/
def process_certificate : Option Cert → RevocationTable → CertEval
  | none, _ => ⟨none, none, false, none⟩
  | some cert, table =>
    let hexSerial := subjectSerialHex cert.serial_number
    let issuerSerial := findIssuerSerial cert.issuer
    let statusInfo := lookupStatus table hexSerial issuerSerial
    ⟨some hexSerial, issuerSerial, statusInfo.isSome, statusInfo⟩

/-- The revocation test of the main loop: `if is_found and status_info:` then
`status = status_info.get("status", "UNKNOWN")` and `if status == "REVOKED":`.
An entry dict is never empty, so its truthiness is `isSome`. -/
def certCountsRevoked (found : Bool) (statusInfo : Option RevEntry) : Bool :=
  match statusInfo with
  | some si => found && (si.status == "REVOKED")
  | none => false

/-- First index at which `pat` occurs in the text (leftmost match). -/
def findIdx? (pat : List Char) : List Char → Option Nat
  | [] => if pat = [] then some 0 else none
  | c :: rest =>
    if pat.isPrefixOf (c :: rest) then some 0
    else (findIdx? pat rest).map (· + 1)

/-- `text.split(marker)[0]`: the part before the first occurrence of the
marker, or the whole text when the marker is absent. -/
def splitBeforeFirst (marker text : List Char) : List Char :=
  match findIdx? marker text with
  | some i => text.take i
  | none => text

/-- The chain-terminator tag: `"</CertificateChain>"`. -/
def chainTerminator : List Char := "</CertificateChain>".data

/-- Comment start marker `"<!--"`. -/
def commentOpen : List Char := "<!--".data

/-- Comment end marker `"-->"`. -/
def commentClose : List Char := "-->".data

/-- `re.sub(r"<!--.*?-->", "", content, flags=re.DOTALL)`: repeatedly delete
the leftmost `<!--`, lazily up to the nearest following `-->`, continuing
after the deleted region (no rescan of already-emitted output).  `fuel`
bounds the recursion; each step removes at least seven characters. -/
def stripCommentsFuel : Nat → List Char → List Char
  | 0, text => text
  | fuel + 1, text =>
    match findIdx? commentOpen text with
    | none => text
    | some i =>
      match findIdx? commentClose (text.drop (i + commentOpen.length)) with
      | none => text
      | some j =>
        text.take i ++
          stripCommentsFuel fuel
            (text.drop (i + commentOpen.length + j + commentClose.length))

/-- Comment removal over the whole text. -/
def stripComments (text : List Char) : List Char :=
  stripCommentsFuel (text.length + 1) text

/-- The literal head of the block regex: `"-----BEGIN CERTIFICATE"`. -/
def beginMarker : List Char := "-----BEGIN CERTIFICATE".data

/-- The literal middle of the block regex: `"-----END CERTIFICATE"`. -/
def endMarkerText : List Char := "-----END CERTIFICATE".data

/-- The literal tail of the block regex: `"-----"`. -/
def fiveDashes : List Char := "-----".data

/-- The full PEM END marker line, `"-----END CERTIFICATE-----"`. -/
def endMarkerFull : List Char := "-----END CERTIFICATE-----".data

/-- `re.findall(r"(-----BEGIN CERTIFICATE.*?-----END CERTIFICATE.*?-----)",
content, re.DOTALL)`.  A match starts at the leftmost `-----BEGIN
CERTIFICATE`, extends lazily to the nearest following `-----END CERTIFICATE`,
then lazily to the nearest following `-----`; scanning resumes after the
match.  When one of the later literals has no occurrence, no later starting
position can succeed either, so the scan stops.  `fuel` bounds the recursion;
each step consumes at least the matched block. -/
def extractBlocksFuel : Nat → List Char → List (List Char)
  | 0, _ => []
  | fuel + 1, text =>
    match findIdx? beginMarker text with
    | none => []
    | some i =>
      match findIdx? endMarkerText (text.drop (i + beginMarker.length)) with
      | none => []
      | some j =>
        match findIdx? fiveDashes
            (text.drop (i + beginMarker.length + j + endMarkerText.length)) with
        | none => []
        | some k =>
          (text.drop i).take
              (beginMarker.length + j + endMarkerText.length + k + fiveDashes.length) ::
            extractBlocksFuel fuel
              (text.drop
                (i + (beginMarker.length + j + endMarkerText.length + k + fiveDashes.length)))

/-- All block matches of the certificate regex. -/
def extractBlocks (text : List Char) : List (List Char) :=
  extractBlocksFuel (text.length + 1) text

/-- The extraction pipeline of the main loop: truncate at the first
`</CertificateChain>`, strip comments, then match certificate blocks. -/
def extractCertificates (text : List Char) : List (List Char) :=
  extractBlocks (stripComments (splitBeforeFirst chainTerminator text))

/-- One line of per-certificate output state in the main loop. -/
structure CertReport where
  cert_number : Nat
  hex_serial : Option String
  issuer_serial : Option String
  found : Bool
  status_info : Option RevEntry
deriving DecidableEq

/-- Whether this certificate increments `found_count` / `file_matches`. -/
def isRevokedReport (r : CertReport) : Bool :=
  certCountsRevoked r.found r.status_info

/-- The `for i, cert in enumerate(certs, 1)` loop body: strip the block,
parse it (external, abstracted as `parse`), and evaluate it. -/
def mkReports (parse : List Char → Option Cert) (table : RevocationTable) :
    Nat → List (List Char) → List CertReport
  | _, [] => []
  | i, b :: rest =>
    let ev := process_certificate (parse (pyStripChars b)) table
    ⟨i, ev.hex_serial, ev.issuer_serial, ev.found, ev.status_info⟩ ::
      mkReports parse table (i + 1) rest

/-- Per-file result of the main loop. -/
structure FileOutcome where
  name : String
  noCertsFound : Bool
  reports : List CertReport
  file_matches : Nat
deriving DecidableEq

/-- Processing of one XML file in the main loop: extract blocks; when none,
print "No certificates found" and continue; otherwise evaluate every block
and count the revoked ones. -/
def processFile (parse : List Char → Option Cert) (table : RevocationTable)
    (name : String) (content : List Char) : FileOutcome :=
  let certs := extractCertificates content
  if certs = [] then ⟨name, true, [], 0⟩
  else
    let reports := mkReports parse table 1 certs
    ⟨name, false, reports, reports.countP isRevokedReport⟩

/-- The `if file_matches:` test that appends the file to `files_to_delete`. -/
def markedForDeletion (fo : FileOutcome) : Bool := fo.file_matches != 0

/-- Run-level accumulators and the final tally as printed. -/
structure RunResult where
  total_count : Nat
  found_count : Nat
  validPrinted : Int
  files_to_delete : List String
  fileOutcomes : List FileOutcome

/-- The whole file loop of `main` plus the final tally: `total_count` counts
files, `found_count` sums `file_matches`, the "valid keyboxes" line prints
`total_count - found_count`, and `files_to_delete` collects the files whose
`file_matches` is non-zero, in order. -/
def runPipeline (parse : List Char → Option Cert) (table : RevocationTable)
    (files : List (String × List Char)) : RunResult :=
  let outcomes := files.map (fun f => processFile parse table f.1 f.2)
  { total_count := files.length
  , found_count := (outcomes.map (fun fo => fo.file_matches)).sum
  , validPrinted :=
      (files.length : Int) - ((outcomes.map (fun fo => fo.file_matches)).sum : Int)
  , files_to_delete := (outcomes.filter markedForDeletion).map (fun fo => fo.name)
  , fileOutcomes := outcomes }

/-- The deletion prompt test:
`input(...).strip().lower() in ["", "y", "yes"]`. -/
def confirmAccepted (input : String) : Bool :=
  let confirm := pyLower (pyStrip input)
  confirm == "" || confirm == "y" || confirm == "yes"

/-- The deletion stage of `main`: the prompt is reached only when
`files_to_delete` is non-empty, and on an accepted answer every collected
file is passed to `os.remove` (individual failures are caught and do not
stop the loop; this models the attempted deletions). -/
def deletionAttempts (files_to_delete : List String) (input : String) : List String :=
  if files_to_delete.isEmpty then []
  else if confirmAccepted input then files_to_delete
  else []

/-- Outcome of starting the script (`python main.py`). -/
inductive StartupResult where
  | tracebackExit (moduleName : String)
  | hintExit (moduleName : String)
  | runsMain
deriving DecidableEq

/-- Whether the startup printed one of the `pip install ...` hints. -/
def printsInstallHint : StartupResult → Bool
  | .hintExit _ => true
  | _ => false

/-- Whether startup got as far as calling `main()` (all network and file
activity happens inside `main`). -/
def reachesMain : StartupResult → Bool
  | .runsMain => true
  | _ => false

/-- Python module start-up for `main.py` (lines 1-8 and the
`if __name__ == "__main__":` guard).  The top-level imports run first, in
source order (`os`, `re`, `requests`, `time`, `colorama`, `cryptography`,
...; the standard-library modules are always importable); an unavailable
third-party module raises an uncaught `ImportError` there, terminating with
a traceback and a non-zero status (`tracebackExit`) — the guarded re-imports
in the `__main__` block with their `pip install` hints run only afterwards,
when every top-level import has already succeeded. -/
def moduleStartup (hasCryptography hasColorama hasRequests : Bool) : StartupResult :=
  if !hasRequests then .tracebackExit "requests"
  else if !hasColorama then .tracebackExit "colorama"
  else if !hasCryptography then .tracebackExit "cryptography"
  else if !hasCryptography then .hintExit "cryptography"
  else if !hasColorama then .hintExit "colorama"
  else if !hasRequests then .hintExit "requests"
  else .runsMain

/-- The per-block shape actually guaranteed by the block regex: the block
starts with the BEGIN literal; the nearest END literal after the BEGIN
header sits at offset `beginMarker.length + j`; the nearest five-dash run at
or after that END literal ends the block exactly. -/
def blockWellFormed (b : List Char) : Bool :=
  beginMarker.isPrefixOf b &&
  match findIdx? endMarkerText (b.drop beginMarker.length) with
  | none => false
  | some j =>
    match findIdx? fiveDashes
        (b.drop (beginMarker.length + j + endMarkerText.length)) with
    | none => false
    | some k =>
      b.length == beginMarker.length + j + endMarkerText.length + k + fiveDashes.length

/-- Number of positions at which `pat` occurs in `t`. -/
def countOcc (pat t : List Char) : Nat :=
  (List.range (t.length + 1)).countP (fun p => pat.isPrefixOf (t.drop p))

/-- The ending shape asserted by the claim: the block ends exactly at its
(nearest) full `-----END CERTIFICATE-----` marker. -/
def endsAtEndMarker (b : List Char) : Bool := endMarkerFull.isSuffixOf b

/-- The returned blocks occur in the processed text, in order of appearance
and pairwise disjoint (each next block lives in the remainder after the
previous one). -/
def orderedDisjointIn : List (List Char) → List Char → Prop
  | [], _ => True
  | b :: bs, t => ∃ u v, t = u ++ b ++ v ∧ orderedDisjointIn bs v

/-! ### Concrete inputs used by the claim witnesses and counterexamples -/

def c8input : List Char :=
  "-----BEGIN CERTIFICATE-----MIIB-----END CERTIFICATE stray-----".data

def c2parse : List Char → Option Cert := fun _ => some ⟨0x1a2b, []⟩

def c2table : RevocationTable := [("1a2b", ⟨"REVOKED", "KEY_COMPROMISE"⟩)]

def c2content : List Char :=
  "-----BEGIN CERTIFICATE-----\nA\n-----END CERTIFICATE-----".data

def c2report : CertReport :=
  ⟨1, some "1a2b", none, true, some ⟨"REVOKED", "KEY_COMPROMISE"⟩⟩

def c5table : RevocationTable :=
  [("1a2b", ⟨"REVOKED", "KEY_COMPROMISE"⟩), ("9c", ⟨"VALID", "OK"⟩)]

def c9parse : List Char → Option Cert := fun _ => none

def c10entry : RevEntry := ⟨"REVOKED", "X"⟩

def c6block1 : List Char :=
  "-----BEGIN CERTIFICATE-----\nA\n-----END CERTIFICATE-----".data

def c6block2 : List Char :=
  "-----BEGIN CERTIFICATE-----\nB\n-----END CERTIFICATE-----".data

def c6parse : List Char → Option Cert := fun b =>
  if b = c6block1 then some ⟨0x1a2b, []⟩
  else if b = c6block2 then some ⟨0x3c4d, []⟩
  else none

def c6table : RevocationTable :=
  [("1a2b", ⟨"REVOKED", "KEY_COMPROMISE"⟩), ("3c4d", ⟨"REVOKED", "KEY_COMPROMISE"⟩)]

def c6content : List Char :=
  ("-----BEGIN CERTIFICATE-----\nA\n-----END CERTIFICATE-----\n" ++
   "-----BEGIN CERTIFICATE-----\nB\n-----END CERTIFICATE-----").data

def c6run : RunResult := runPipeline c6parse c6table [("k.xml", c6content)]

/-! ### Helper lemmas -/

lemma process_certificate_found_isSome (pc : Option Cert) (table : RevocationTable) :
    (process_certificate pc table).found = (process_certificate pc table).status_info.isSome := by
  cases pc <;> rfl

lemma mkReports_found_eq_isSome (parse : List Char → Option Cert)
    (table : RevocationTable) :
    ∀ (i : Nat) (blocks : List (List Char)) (r : CertReport),
      r ∈ mkReports parse table i blocks → r.found = r.status_info.isSome := by
  intro i blocks
  induction blocks generalizing i with
  | nil => intro r hr; cases hr
  | cons b rest ih =>
    intro r hr
    rcases List.mem_cons.mp hr with h | h
    · subst h
      exact process_certificate_found_isSome (parse (pyStripChars b)) table
    · exact ih _ r h

lemma lookupStatus_nil (hexSerial : String) (issuerSerial : Option String) :
    lookupStatus [] hexSerial issuerSerial = none := by
  cases issuerSerial <;> simp [lookupStatus, tableFind?, List.find?]

lemma process_certificate_nil_table (pc : Option Cert) :
    (process_certificate pc []).found = false
      ∧ (process_certificate pc []).status_info = none := by
  cases pc with
  | none => exact ⟨rfl, rfl⟩
  | some c => simp [process_certificate, lookupStatus_nil]

lemma mkReports_nil_table (parse : List Char → Option Cert) :
    ∀ (i : Nat) (blocks : List (List Char)) (r : CertReport),
      r ∈ mkReports parse [] i blocks → r.found = false ∧ r.status_info = none := by
  intro i blocks
  induction blocks generalizing i with
  | nil => intro r hr; cases hr
  | cons b rest ih =>
    intro r hr
    rcases List.mem_cons.mp hr with h | h
    · subst h
      exact process_certificate_nil_table (parse (pyStripChars b))
    · exact ih _ r h

lemma isRevokedReport_false_of_nil_table (parse : List Char → Option Cert)
    (i : Nat) (blocks : List (List Char)) (r : CertReport)
    (hr : r ∈ mkReports parse [] i blocks) : isRevokedReport r = false := by
  obtain ⟨-, h2⟩ := mkReports_nil_table parse i blocks r hr
  simp [isRevokedReport, certCountsRevoked, h2]

lemma processFile_nil_table (parse : List Char → Option Cert) (name : String)
    (content : List Char) :
    (processFile parse [] name content).file_matches = 0
      ∧ ∀ r ∈ (processFile parse [] name content).reports,
          r.found = false ∧ r.status_info = none := by
  unfold processFile
  by_cases h : extractCertificates content = []
  · simp [h]
  · simp only [h, if_neg h]
    constructor
    · exact List.countP_eq_zero.mpr
        (fun r hr => by simp [isRevokedReport_false_of_nil_table parse 1 _ r hr])
    · exact fun r hr => mkReports_nil_table parse 1 _ r hr

/-! ### Claim theorems -/

/-- C1: the evaluator's `subjectSerialHex` is claimed to be non-empty with a
serial of exactly zero rendered as `"0"`; the code's
`format(...).lower().lstrip("0")` instead collapses a zero serial to the
empty string. -/
theorem C1_zero_serial_collapses :
    subjectSerialHex 0 = "" ∧ subjectSerialHex 0 ≠ "0" := by decide

/-- C2: a certificate whose lookup key matched an entry counts as revoked
(and its file is marked for deletion) exactly when the entry's status is the
case-sensitive string `"REVOKED"`; any other status (`"revoked"`, `"VALID"`,
`"UNKNOWN"`, ...) is carried in the report but never contributes to the
deletion set. -/
theorem C2_revoked_exact_match :
    ∀ (parse : List Char → Option Cert) (table : RevocationTable) (name : String)
      (content : List Char),
      (∀ r ∈ (processFile parse table name content).reports,
        (isRevokedReport r = true ↔ ∃ e, r.status_info = some e ∧ e.status = "REVOKED"))
      ∧ (markedForDeletion (processFile parse table name content) = true ↔
          ∃ r ∈ (processFile parse table name content).reports, isRevokedReport r = true)
      ∧ certCountsRevoked true (some ⟨"revoked", "r"⟩) = false
      ∧ certCountsRevoked true (some ⟨"VALID", "r"⟩) = false
      ∧ certCountsRevoked true (some ⟨"UNKNOWN", "r"⟩) = false
      ∧ certCountsRevoked true (some ⟨"REVOKED", "r"⟩) = true := by
  intro parse table name content
  have key : ∀ r ∈ (processFile parse table name content).reports,
      (isRevokedReport r = true ↔ ∃ e, r.status_info = some e ∧ e.status = "REVOKED") := by
    intro r hr
    have hfound : r.found = r.status_info.isSome := by
      unfold processFile at hr
      by_cases h : extractCertificates content = []
      · simp [h] at hr
      · simp only [if_neg h] at hr
        exact mkReports_found_eq_isSome parse table 1 _ r hr
    unfold isRevokedReport certCountsRevoked
    cases hsi : r.status_info with
    | none => simp
    | some e =>
      rw [hfound, hsi]
      simp
  refine ⟨key, ?_, by decide, by decide, by decide, by decide⟩
  unfold markedForDeletion
  rw [bne_iff_ne]
  constructor
  · intro hne
    have hpos : 0 < (processFile parse table name content).file_matches :=
      Nat.pos_of_ne_zero hne
    unfold processFile at hpos ⊢
    by_cases h : extractCertificates content = []
    · simp [h] at hpos
    · simp only [if_neg h] at hpos ⊢
      exact List.countP_pos_iff.mp hpos
  · intro ⟨r, hr, hrev⟩
    unfold processFile at hr ⊢
    by_cases h : extractCertificates content = []
    · simp [h] at hr
    · simp only [if_neg h] at hr ⊢
      exact Nat.pos_iff_ne_zero.mp (List.countP_pos_iff.mpr ⟨r, hr, by simp [hrev]⟩)

/-- C3: once the deletion prompt is reached (a non-empty deletion set), files
are deleted exactly when the stripped, lowercased input is `""`, `"y"` or
`"yes"`; any other input deletes nothing. -/
theorem C3_deletion_prompt_gate :
    ∀ (fs : List String) (input : String), fs ≠ [] →
      (confirmAccepted input = true → deletionAttempts fs input = fs)
      ∧ (confirmAccepted input = false → deletionAttempts fs input = [])
      ∧ (confirmAccepted input = true ↔ pyLower (pyStrip input) ∈ ["", "y", "yes"]) := by
  intro fs input hfs
  have hne : fs.isEmpty = false := by simpa using hfs
  refine ⟨?_, ?_, ?_⟩
  · intro hacc; simp [deletionAttempts, hne, hacc]
  · intro hacc; simp [deletionAttempts, hne, hacc]
  · simp [confirmAccepted, List.mem_cons, or_assoc]

/-- C4: on any fetch failure the fetch returns the empty table; running the
pipeline with the empty table classifies every certificate in every file as
unmatched and flags zero files for deletion, whatever the files contain. -/
theorem C4_fetch_failure_fail_open :
    ∀ (message : String) (parse : List Char → Option Cert)
      (files : List (String × List Char)),
      get_online_serial_list (.failure message) = []
      ∧ (runPipeline parse [] files).files_to_delete = []
      ∧ ((runPipeline parse [] files).fileOutcomes.all
          (fun fo => fo.reports.all
            (fun r => !r.found && r.status_info.isNone))) = true := by
  intro message parse files
  refine ⟨rfl, ?_, ?_⟩
  · show ((files.map (fun f => processFile parse [] f.1 f.2)).filter
        markedForDeletion).map (fun fo => fo.name) = []
    rw [List.filter_eq_nil_iff.mpr, List.map_nil]
    intro fo hfo
    obtain ⟨f, -, rfl⟩ := List.mem_map.mp hfo
    have h0 := (processFile_nil_table parse f.1 f.2).1
    simp [markedForDeletion, h0]
  · show ((files.map (fun f => processFile parse [] f.1 f.2)).all
        (fun fo => fo.reports.all (fun r => !r.found && r.status_info.isNone))) = true
    rw [List.all_eq_true]
    intro fo hfo
    obtain ⟨f, -, rfl⟩ := List.mem_map.mp hfo
    rw [List.all_eq_true]
    intro r hr
    obtain ⟨h1, h2⟩ := (processFile_nil_table parse f.1 f.2).2 r hr
    simp [h1, h2]

/-- C5: the revocation table is queried with the subject serial first; the
issuer serial is used only when the subject serial is absent and the issuer
serial is non-null (and non-empty); when the subject serial is present its
entry wins. -/
theorem C5_lookup_precedence :
    ∀ (table : RevocationTable) (subjectKey : String) (issuerKey : Option String),
      ((tableFind? table subjectKey).isSome = true →
        lookupStatus table subjectKey issuerKey = tableFind? table subjectKey)
      ∧ (tableFind? table subjectKey = none →
          ∀ s, issuerKey = some s → s ≠ "" →
            lookupStatus table subjectKey issuerKey = tableFind? table s)
      ∧ (tableFind? table subjectKey = none →
          (issuerKey = none ∨ issuerKey = some "") →
          lookupStatus table subjectKey issuerKey = none) := by
  intro table subjectKey issuerKey
  refine ⟨?_, ?_, ?_⟩
  · intro hsome
    unfold lookupStatus
    cases h : tableFind? table subjectKey with
    | none => rw [h] at hsome; cases hsome
    | some e => rfl
  · intro hnone s hs hne
    subst hs
    unfold lookupStatus
    rw [hnone]
    simp [hne]
  · intro hnone hcase
    unfold lookupStatus
    rw [hnone]
    rcases hcase with h | h <;> subst h <;> simp

/-- C7: when a required library is missing, startup terminates before `main`
(so before any network or file activity) with an uncaught `ImportError`
traceback from the top-level imports; the guarded install hints under
`if __name__ == "__main__":` can never fire, so no install hint is printed —
contradicting the claim's "prints an install hint". -/
theorem C7_install_hint_unreachable :
    ∀ (hasCryptography hasColorama hasRequests : Bool),
      printsInstallHint (moduleStartup hasCryptography hasColorama hasRequests) = false
      ∧ (reachesMain (moduleStartup hasCryptography hasColorama hasRequests)
          = (hasCryptography && hasColorama && hasRequests)) := by decide

/-- C9: a file from which zero certificate blocks are extracted reports
"no certificates found", produces zero certificate records, and is never
marked for deletion; a run whose files all extract to zero blocks deletes
nothing. -/
theorem C9_no_certificates :
    ∀ (parse : List Char → Option Cert) (table : RevocationTable) (name : String)
      (content : List Char),
      extractCertificates content = [] →
      (processFile parse table name content).noCertsFound = true
      ∧ (processFile parse table name content).reports = []
      ∧ markedForDeletion (processFile parse table name content) = false
      ∧ ∀ files : List (String × List Char),
          (∀ f ∈ files, extractCertificates f.2 = []) →
          (runPipeline parse table files).files_to_delete = [] := by
  intro parse table name content hempty
  refine ⟨by simp [processFile, hempty], by simp [processFile, hempty],
    by simp [processFile, hempty, markedForDeletion], ?_⟩
  intro files hall
  show ((files.map (fun f => processFile parse table f.1 f.2)).filter
      markedForDeletion).map (fun fo => fo.name) = []
  rw [List.filter_eq_nil_iff.mpr, List.map_nil]
  intro fo hfo
  obtain ⟨f, hf, rfl⟩ := List.mem_map.mp hfo
  simp [processFile, hall f hf, markedForDeletion]

/-- C10: an issuer serial-number attribute with no hexadecimal characters
normalizes to the empty string, and the empty string behaves like an absent
issuer serial: the issuer-side lookup is skipped, so even a table entry keyed
by `""` is never matched through the issuer path. -/
theorem C10_empty_issuer_serial_skipped :
    ∀ (v : String) (table : RevocationTable) (subjectKey : String),
      ((pyLower v).data.all (fun c => !isLowerHexDigit c)) = true →
      normalizeIssuerSerial v = ""
      ∧ (tableFind? table subjectKey = none →
          lookupStatus table subjectKey (some (normalizeIssuerSerial v)) = none) := by
  intro v table subjectKey hall
  have hfilter : (pyLower v).data.filter isLowerHexDigit = [] := by
    rw [List.filter_eq_nil_iff]
    intro c hc
    have := List.all_eq_true.mp hall c hc
    simpa using this
  have hnorm : normalizeIssuerSerial v = "" := by
    unfold normalizeIssuerSerial
    rw [hfilter]
  refine ⟨hnorm, ?_⟩
  intro hnone
  rw [hnorm]
  unfold lookupStatus
  rw [hnone]
  simp

/-! ### Witnesses and concrete runs -/

/-- Witness for C2 at a concrete one-certificate file with a REVOKED entry. -/
theorem C2_revoked_exact_match_witness :
    markedForDeletion (processFile c2parse c2table "k.xml" c2content) = true :=
  ((C2_revoked_exact_match c2parse c2table "k.xml" c2content).2.1).mpr
    ⟨c2report, by decide, by decide⟩

/-- Witness for C3: declined prompt (input `" N "`) deletes nothing. -/
theorem C3_deletion_prompt_gate_witness :
    deletionAttempts ["a.xml"] " N " = [] :=
  ((C3_deletion_prompt_gate ["a.xml"] " N ") (by decide)).2.1 (by decide)

/-- Witness for C5: with both the subject key and a different issuer key in
the table, the subject-serial entry is returned. -/
theorem C5_lookup_precedence_witness :
    lookupStatus c5table "1a2b" (some "9c") = some ⟨"REVOKED", "KEY_COMPROMISE"⟩ := by
  have h := (C5_lookup_precedence c5table "1a2b" (some "9c")).1 (by decide)
  rw [h]; decide

/-- Witness for C9 on a file whose text contains no certificate block. -/
theorem C9_no_certificates_witness :
    (processFile c9parse [] "a.xml" "no certs here".data).noCertsFound = true :=
  ((C9_no_certificates c9parse [] "a.xml" "no certs here".data) (by decide)).1

/-- Witness for C10: issuer attribute `"XYZ+!"` normalizes to `""` and an
entry keyed by `""` is not matched through the issuer path. -/
theorem C10_empty_issuer_serial_skipped_witness :
    lookupStatus [("", c10entry)] "dead" (some (normalizeIssuerSerial "XYZ+!")) = none :=
  ((C10_empty_issuer_serial_skipped "XYZ+!" [("", c10entry)] "dead") (by decide)).2
    (by decide)

set_option maxRecDepth 40000 in
/-- C6: on a single file holding two revoked certificates the final tally
prints `found_count = 2` revoked "keyboxes" and `total - found = -1` valid
"keyboxes" (it counts revoked certificates), while the number of scanned
files with at least one revoked certificate is 1 and the number with none is
0 — the claimed file-level counts. -/
theorem C6_tally_counts_certificates :
    c6run.total_count = 1
    ∧ (c6run.fileOutcomes.countP markedForDeletion) = 1
    ∧ (c6run.fileOutcomes.countP (fun fo => fo.file_matches == 0)) = 0
    ∧ c6run.found_count = 2
    ∧ c6run.validPrinted = -1 := by decide

/-! ### Lemmas about the substring scanner -/

lemma isPrefixOf_iff {l₁ l₂ : List Char} : l₁.isPrefixOf l₂ = true ↔ l₁ <+: l₂ :=
  List.isPrefixOf_iff_prefix

lemma isPrefixOf_trans {a b c : List Char} (h1 : a.isPrefixOf b = true)
    (h2 : b.isPrefixOf c = true) : a.isPrefixOf c = true := by
  rw [isPrefixOf_iff] at h1 h2 ⊢
  exact h1.trans h2

lemma findIdx?_occurrence : ∀ {t pat : List Char} {i : Nat},
    findIdx? pat t = some i → pat.isPrefixOf (t.drop i) = true := by
  intro t
  induction t with
  | nil =>
    intro pat i h
    unfold findIdx? at h
    split at h
    · rename_i hp
      cases h
      subst hp
      rfl
    · cases h
  | cons c rest ih =>
    intro pat i h
    unfold findIdx? at h
    split at h
    · rename_i hp
      cases h
      simpa using hp
    · rcases Option.map_eq_some'.mp h with ⟨i', hi', rfl⟩
      simpa using ih hi'

lemma findIdx?_minimal : ∀ {t pat : List Char} {i : Nat},
    findIdx? pat t = some i → ∀ q, q < i → pat.isPrefixOf (t.drop q) = false := by
  intro t
  induction t with
  | nil =>
    intro pat i h q hq
    unfold findIdx? at h
    split at h
    · cases h; omega
    · cases h
  | cons c rest ih =>
    intro pat i h q hq
    unfold findIdx? at h
    split at h
    · cases h; omega
    · rename_i hp
      rcases Option.map_eq_some'.mp h with ⟨i', hi', rfl⟩
      cases q with
      | zero => simpa using Bool.of_not_eq_true hp
      | succ q' => simpa using ih hi' q' (by omega)

lemma findIdx?_le_length : ∀ {t pat : List Char} {i : Nat},
    findIdx? pat t = some i → i ≤ t.length := by
  intro t
  induction t with
  | nil =>
    intro pat i h
    unfold findIdx? at h
    split at h
    · cases h; omega
    · cases h
  | cons c rest ih =>
    intro pat i h
    unfold findIdx? at h
    split at h
    · cases h; omega
    · rcases Option.map_eq_some'.mp h with ⟨i', hi', rfl⟩
      have := ih hi'
      simp
      omega

lemma findIdx?_add_length_le {t pat : List Char} {i : Nat}
    (h : findIdx? pat t = some i) : i + pat.length ≤ t.length := by
  have h1 := (isPrefixOf_iff.mp (findIdx?_occurrence h)).length_le
  have h2 := findIdx?_le_length h
  rw [List.length_drop] at h1
  omega

lemma isPrefixOf_take {pat l : List Char} {m : Nat}
    (h : pat.isPrefixOf l = true) (hm : pat.length ≤ m) :
    pat.isPrefixOf (l.take m) = true := by
  rw [isPrefixOf_iff] at h ⊢
  obtain ⟨t, rfl⟩ := h
  rw [List.take_append_eq_append_take, List.take_of_length_le hm]
  exact List.prefix_append _ _

lemma isPrefixOf_of_take {pat l : List Char} {m : Nat}
    (h : pat.isPrefixOf (l.take m) = true) : pat.isPrefixOf l = true := by
  rw [isPrefixOf_iff] at h ⊢
  exact h.trans ( List.take_prefix m l)

lemma findIdx?_take : ∀ {t pat : List Char} {i m : Nat},
    findIdx? pat t = some i → i + pat.length ≤ m →
    findIdx? pat (t.take m) = some i := by
  intro t
  induction t with
  | nil =>
    intro pat i m h hm
    simpa using h
  | cons c rest ih =>
    intro pat i m h hm
    cases m with
    | zero =>
      have hi : i = 0 := by omega
      have hp : pat = [] := List.length_eq_zero.mp (by omega)
      subst hi hp
      rfl
    | succ m' =>
      rw [List.take_succ_cons]
      unfold findIdx? at h ⊢
      split at h
      · rename_i hpre
        cases h
        rw [if_pos]
        have : pat.isPrefixOf ((c :: rest).take (m' + 1)) = true :=
          isPrefixOf_take hpre (by omega)
        simpa using this
      · rename_i hpre
        rcases Option.map_eq_some'.mp h with ⟨i', hi', rfl⟩
        have hneg : ¬ pat.isPrefixOf (c :: rest.take m') = true := by
          intro hcon
          exact hpre (isPrefixOf_of_take (m := m' + 1) (by simpa using hcon))
        rw [if_neg hneg, ih hi' (by omega)]
        rfl

lemma isPrefixOf_getElem? {pat l : List Char} (h : pat.isPrefixOf l = true)
    {m : Nat} (hm : m < pat.length) : l[m]? = pat[m]? := by
  obtain ⟨t, rfl⟩ := isPrefixOf_iff.mp h
  exact List.getElem?_append_left hm

lemma drop_add_eq (t : List Char) (a b : Nat) : t.drop (a + b) = (t.drop a).drop b :=
  (List.drop_drop b a t).symm

lemma beginEnd_mismatch :
    ∀ p, p < beginMarker.length →
      ∃ m, m < endMarkerText.length ∧ p + m < beginMarker.length ∧
        ¬(endMarkerText[m]? = beginMarker[p + m]?) := by decide

lemma endSelfOverlap :
    ∀ d, d < endMarkerText.length → 0 < d →
      ∃ m, m < endMarkerText.length ∧ d + m < endMarkerText.length ∧
        ¬(endMarkerText[m]? = endMarkerText[d + m]?) := by decide

lemma block_sound_aux {u : List Char} {j k : Nat}
    (hu1 : beginMarker.isPrefixOf u = true)
    (hj' : findIdx? endMarkerText (u.drop beginMarker.length) = some j)
    (hk' : findIdx? fiveDashes
        (u.drop (beginMarker.length + j + endMarkerText.length)) = some k) :
    blockWellFormed (u.take
        (beginMarker.length + j + endMarkerText.length + k + fiveDashes.length)) = true
    ∧ countOcc endMarkerText (u.take
        (beginMarker.length + j + endMarkerText.length + k + fiveDashes.length)) = 1 := by
  have hE0 : 0 < endMarkerText.length := by decide
  have hD0 : 0 < fiveDashes.length := by decide
  have hDE : fiveDashes.length < endMarkerText.length := by decide
  have hdashpre : fiveDashes.isPrefixOf endMarkerText = true := by decide
  have hend : endMarkerText.isPrefixOf (u.drop (beginMarker.length + j)) = true := by
    have h0 := findIdx?_occurrence hj'
    rwa [← drop_add_eq] at h0
  have hlenB : beginMarker.length ≤ u.length := by
    have h1 := (isPrefixOf_iff.mp hu1).length_le
    omega
  have hlen2 := findIdx?_add_length_le hj'
  rw [List.length_drop] at hlen2
  have hlen3 := findIdx?_add_length_le hk'
  rw [List.length_drop] at hlen3
  set L := beginMarker.length + j + endMarkerText.length + k + fiveDashes.length with hL
  have hLle : L ≤ u.length := by omega
  have hb_len : (u.take L).length = L := by rw [List.length_take]; omega
  have g1 : beginMarker.isPrefixOf (u.take L) = true := isPrefixOf_take hu1 (by omega)
  have g2 : findIdx? endMarkerText ((u.take L).drop beginMarker.length) = some j := by
    rw [List.drop_take]
    exact findIdx?_take hj' (by omega)
  have g3 : findIdx? fiveDashes
      ((u.take L).drop (beginMarker.length + j + endMarkerText.length)) = some k := by
    rw [List.drop_take]
    exact findIdx?_take hk' (by omega)
  constructor
  · unfold blockWellFormed
    simp [g1, g2, g3, hb_len]
  · have char : ∀ p, endMarkerText.isPrefixOf ((u.take L).drop p) = true
        ↔ p = beginMarker.length + j := by
      intro p
      constructor
      · intro hp
        have hpE : endMarkerText.length ≤ ((u.take L).drop p).length :=
          (isPrefixOf_iff.mp hp).length_le
        rw [List.length_drop, hb_len] at hpE
        have hpL : p + endMarkerText.length ≤ L := by omega
        have hup : endMarkerText.isPrefixOf (u.drop p) = true := by
          rw [List.drop_take] at hp
          exact isPrefixOf_of_take hp
        by_cases hA : p < beginMarker.length
        · obtain ⟨m, hm1, hm2, hmne⟩ := beginEnd_mismatch p hA
          exfalso
          apply hmne
          calc endMarkerText[m]? = (u.drop p)[m]? := (isPrefixOf_getElem? hup hm1).symm
            _ = u[p + m]? := List.getElem?_drop u p m
            _ = beginMarker[p + m]? := isPrefixOf_getElem? hu1 hm2
        · by_cases hBc : p < beginMarker.length + j
          · exfalso
            have hmin := findIdx?_minimal hj' (p - beginMarker.length) (by omega)
            have heq : (u.drop beginMarker.length).drop (p - beginMarker.length)
                = u.drop p := by
              rw [← drop_add_eq]
              congr 1
              omega
            rw [heq] at hmin
            simp [hup] at hmin
          · by_cases hCc : p = beginMarker.length + j
            · exact hCc
            · by_cases hDc : p < beginMarker.length + j + endMarkerText.length
              · exfalso
                obtain ⟨m, hm1, hm2, hmne⟩ :=
                  endSelfOverlap (p - (beginMarker.length + j)) (by omega) (by omega)
                have hwd : endMarkerText.isPrefixOf
                    ((u.drop (beginMarker.length + j)).drop
                      (p - (beginMarker.length + j))) = true := by
                  rw [← drop_add_eq]
                  have e : beginMarker.length + j + (p - (beginMarker.length + j)) = p := by
                    omega
                  rw [e]
                  exact hup
                apply hmne
                calc endMarkerText[m]?
                    = ((u.drop (beginMarker.length + j)).drop
                        (p - (beginMarker.length + j)))[m]? :=
                      (isPrefixOf_getElem? hwd hm1).symm
                  _ = (u.drop (beginMarker.length + j))[(p - (beginMarker.length + j)) + m]? :=
                      List.getElem?_drop _ _ _
                  _ = endMarkerText[(p - (beginMarker.length + j)) + m]? :=
                      isPrefixOf_getElem? hend hm2
              · exfalso
                have hdash : fiveDashes.isPrefixOf (u.drop p) = true :=
                  isPrefixOf_trans hdashpre hup
                have hmin := findIdx?_minimal hk'
                  (p - (beginMarker.length + j + endMarkerText.length)) (by omega)
                have heq : (u.drop (beginMarker.length + j + endMarkerText.length)).drop
                    (p - (beginMarker.length + j + endMarkerText.length)) = u.drop p := by
                  rw [← drop_add_eq]
                  congr 1
                  omega
                rw [heq] at hmin
                simp [hdash] at hmin
      · intro hp
        subst hp
        rw [List.drop_take]
        exact isPrefixOf_take hend (by omega)
    unfold countOcc
    rw [hb_len]
    rw [List.countP_congr (q := fun x => x == beginMarker.length + j)
      (fun p hp => by rw [beq_iff_eq]; exact char p)]
    show List.count (beginMarker.length + j) (List.range (L + 1)) = 1
    exact List.count_eq_one_of_mem (List.nodup_range _) (List.mem_range.mpr (by omega))

lemma headBlock_sound {text : List Char} {i j k : Nat}
    (hi : findIdx? beginMarker text = some i)
    (hj : findIdx? endMarkerText (text.drop (i + beginMarker.length)) = some j)
    (hk : findIdx? fiveDashes
        (text.drop (i + beginMarker.length + j + endMarkerText.length)) = some k) :
    blockWellFormed ((text.drop i).take
        (beginMarker.length + j + endMarkerText.length + k + fiveDashes.length)) = true
    ∧ countOcc endMarkerText ((text.drop i).take
        (beginMarker.length + j + endMarkerText.length + k + fiveDashes.length)) = 1 := by
  apply block_sound_aux
  · exact findIdx?_occurrence hi
  · rw [drop_add_eq] at hj
    exact hj
  · have e : i + beginMarker.length + j + endMarkerText.length
        = i + (beginMarker.length + j + endMarkerText.length) := by omega
    rw [e, drop_add_eq] at hk
    exact hk

lemma extractBlocksFuel_sound : ∀ (fuel : Nat) (t b : List Char),
    b ∈ extractBlocksFuel fuel t →
    blockWellFormed b = true ∧ countOcc endMarkerText b = 1 := by
  intro fuel
  induction fuel with
  | zero => intro t b hb; cases hb
  | succ fuel ih =>
    intro t b hb
    unfold extractBlocksFuel at hb
    split at hb
    · cases hb
    · rename_i i hi
      split at hb
      · cases hb
      · rename_i j hj
        split at hb
        · cases hb
        · rename_i k hk
          rcases List.mem_cons.mp hb with rfl | htail
          · exact headBlock_sound hi hj hk
          · exact ih _ b htail

lemma extractBlocksFuel_ordered : ∀ (fuel : Nat) (t : List Char),
    orderedDisjointIn (extractBlocksFuel fuel t) t := by
  intro fuel
  induction fuel with
  | zero => intro t; trivial
  | succ fuel ih =>
    intro t
    unfold extractBlocksFuel
    split
    · trivial
    · rename_i i hi
      split
      · trivial
      · rename_i j hj
        split
        · trivial
        · rename_i k hk
          refine ⟨t.take i,
            t.drop (i + (beginMarker.length + j + endMarkerText.length + k +
              fiveDashes.length)), ?_, ih _⟩
          rw [List.append_assoc]
          have h1 : (t.drop i).take
              (beginMarker.length + j + endMarkerText.length + k + fiveDashes.length) ++
              t.drop (i + (beginMarker.length + j + endMarkerText.length + k +
                fiveDashes.length)) = t.drop i := by
            rw [drop_add_eq, List.take_append_drop]
          rw [h1, List.take_append_drop]

/-- C8 (amended): extraction truncates at the first chain-terminator
occurrence (whole text when absent), then removes comment regions, then
returns blocks in order of appearance, pairwise disjoint; every returned
block begins at a BEGIN-CERTIFICATE marker, contains exactly one occurrence
of the END-CERTIFICATE text, and ends at the first five-dash run at or after
that occurrence — the END marker's own closing dashes whenever they directly
follow it, but possibly later when stray characters intervene. -/
theorem C8_extraction_stages_and_blocks :
    ∀ text : List Char,
      (findIdx? chainTerminator text = none → splitBeforeFirst chainTerminator text = text)
      ∧ ((extractCertificates text).all
          (fun b => blockWellFormed b && (countOcc endMarkerText b == 1))) = true
      ∧ orderedDisjointIn (extractCertificates text)
          (stripComments (splitBeforeFirst chainTerminator text)) := by
  intro text
  refine ⟨?_, ?_, ?_⟩
  · intro h
    unfold splitBeforeFirst
    rw [h]
  · rw [List.all_eq_true]
    intro b hb
    have hb' : b ∈ extractBlocksFuel
        ((stripComments (splitBeforeFirst chainTerminator text)).length + 1)
        (stripComments (splitBeforeFirst chainTerminator text)) := hb
    obtain ⟨h1, h2⟩ := extractBlocksFuel_sound _ _ b hb'
    simp [h1, h2]
  · exact extractBlocksFuel_ordered _ _

set_option maxRecDepth 40000 in
/-- C8 counterexample: on an input whose END-CERTIFICATE text is followed by
stray characters before the next five-dash run, the single returned block
does not end at its END-CERTIFICATE marker, against the claim's "ends at its
own nearest END-CERTIFICATE marker". -/
theorem C8_block_overruns_marker :
    extractCertificates c8input = [c8input]
    ∧ endsAtEndMarker c8input = false := by decide

/-- Witness for C8 at a text with no chain-terminator marker. -/
theorem C8_extraction_stages_witness :
    splitBeforeFirst chainTerminator "hello".data = "hello".data :=
  (C8_extraction_stages_and_blocks "hello".data).1 (by decide)
